import Mathlib

/-!
Verification of the gossdb SSDB client driver.

This file gives a shallow embedding of the repository's core algorithms:
the incremental frame decoder (`Client.parse` / `Client.recv`), the request
encoder (`Client.send`), the request engine with its retry loop
(`Client.Do` / `Client.Reconnect` / `Client.Close`), the SHA-1 based shard
locator (`Cluster.locate`), and the concurrent multi-key fan-out of the
cluster layer (`Cluster.MultiGet` / `MultiSet` / `MultiDel`).

Bytes are modelled as `Nat` (values < 256 on real inputs), byte strings as
`List Nat`, machine words as `Nat` with explicit reduction mod 2^32 / 2^16
where Go overflow semantics matter.  Goroutine nondeterminism in the
cluster fan-out is made explicit through an `arrival` list (the order in
which per-shard results are received from the channel), and socket I/O is
an explicit oracle (`NetEnv`).
-/

namespace Gossdb

/-! ## Frame decoder: `Client.parse` (byte-offset incremental version)

The Go loop scans the retained receive buffer `recv_buf` for newline-
terminated length lines, then extracts `size` payload bytes plus the
assumed trailing newline.  It consumes bytes (`recv_buf.Next(offset)`)
only when a whole frame has been completed by an empty length line.
We model the loop by structural recursion on the not-yet-scanned
remainder of the buffer, with a fuel argument bounding the number of
loop iterations (each iteration consumes at least one byte of `r`, so
`r.length + 1` fuel always suffices; see `parseLoop_irrel`). -/

/-- Result of one `parse` call: a complete frame (its fields and how many
bytes of the buffer it consumed), or "not enough data yet"
(Go `return []string{}`), or a malformed length line (Go `return nil`). -/
inductive ParseRes where
  | frame (fields : List (List Nat)) (consumed : Nat)
  | incomplete
  | malformed
deriving DecidableEq

/-- `bytes.IndexByte(buf[offset:], '\n')`: index of the first newline. -/
def findNl : List Nat → Option Nat
  | [] => none
  | b :: bs => if b = 10 then some 0 else (findNl bs).map (fun i => i + 1)

/-- `strconv.Atoi`: optional sign, one or more ASCII digits, value within
the 64-bit int range; anything else is an error (`none`). -/
def atoiGo (s : List Nat) : Option Int :=
  let body := match s with
    | 43 :: rest => (false, rest)
    | 45 :: rest => (true, rest)
    | _ => (false, s)
  if body.2 = [] then none
  else if body.2.all (fun d => 48 ≤ d && d ≤ 57) then
    let v : Nat := body.2.foldl (fun acc d => acc * 10 + (d - 48)) 0
    let i : Int := if body.1 then -(v : Int) else (v : Int)
    if -(2 ^ 63) ≤ i ∧ i < 2 ^ 63 then some i else none
  else none

/-- The scanning loop of `Client.parse`.  `r` is the part of the buffer
from the current `offset` on, `consumed` is the current `offset` (so that
`recv_buf.Next(offset)` can be reported on frame completion), `resp` the
fields decoded so far in this pass. -/
def parseLoop : Nat → List Nat → Nat → List (List Nat) → ParseRes
  | 0, _, _, _ => .incomplete
  | fuel + 1, r, consumed, resp =>
    match findNl r with
    | none => .incomplete
    | some idx =>
      if r.take idx = [] ∨ r.take idx = [13] then
        if resp = [] then parseLoop fuel (r.drop (idx + 1)) (consumed + idx + 1) resp
        else .frame resp (consumed + idx + 1)
      else
        match atoiGo (r.take idx) with
        | none => .malformed
        | some size =>
          if size < 0 then .malformed
          else if (r.drop (idx + 1)).length ≤ size.toNat then .incomplete
          else parseLoop fuel ((r.drop (idx + 1)).drop (size.toNat + 1))
                 (consumed + idx + 1 + (size.toNat + 1))
                 (resp ++ [(r.drop (idx + 1)).take size.toNat])

/-- `Client.parse` on the current receive buffer. -/
def parse (buf : List Nat) : ParseRes := parseLoop (buf.length + 1) buf 0 []

/-- Repeatedly run `parse`, consuming each completed frame from the front
of the buffer, until no further complete frame is available.  This is what
the driver does to a quiescent buffer across successive `recv` calls.
Fuel `buf.length + 1` always suffices (each frame consumes ≥ 1 byte). -/
def drain : Nat → List Nat → List (List (List Nat)) × List Nat
  | 0, buf => ([], buf)
  | fuel + 1, buf =>
    match parse buf with
    | .frame fs n =>
      let d := drain fuel (buf.drop n)
      (fs :: d.1, d.2)
    | _ => ([], buf)

/-- `drain` with its always-sufficient fuel. -/
def drainF (buf : List Nat) : List (List (List Nat)) × List Nat :=
  drain (buf.length + 1) buf

/-- Feed a sequence of byte chunks to the decoder: each chunk is appended
to the retained buffer and all frames that are now complete are decoded.
Returns all decoded frames in order plus the final retained buffer. -/
def feedAll (chunks : List (List Nat)) : List (List (List Nat)) × List Nat :=
  chunks.foldl
    (fun st c => (st.1 ++ (drainF (st.2 ++ c)).1, (drainF (st.2 ++ c)).2))
    ([], [])

/-! ## Argument encoder: `Client.send`

Go's `send` walks the `[]interface{}` argument list; each supported value
is rendered to a byte string `s` and framed as `len(s) "\n" s "\n"`;
a `[]string` argument expands to one frame per element; any other dynamic
type aborts the whole request with a `bad request` error before anything
is written to the socket.  The request ends with one empty line. -/

/-- Decimal ASCII rendering of a natural number (`strconv.Itoa` on
non-negative values / `%d`), one digit peeled per unit of fuel; fuel
`n + 1` always suffices since `n / 10 < n` for `n ≥ 10`. -/
def natDecAux : Nat → Nat → List Nat
  | 0, _ => []
  | f + 1, n => if n < 10 then [48 + n] else natDecAux f (n / 10) ++ [48 + n % 10]

/-- Decimal ASCII rendering of a natural number. -/
def natDec (n : Nat) : List Nat := natDecAux (n + 1) n

/-- Decimal ASCII rendering of an integer (`%d`). -/
def intDec (i : Int) : List Nat :=
  if i < 0 then 45 :: natDec (-i).toNat else natDec i.toNat

/-- One wire frame: `<decimal length>\n<payload>\n`. -/
def frameBytes (payload : List Nat) : List Nat :=
  natDec payload.length ++ [10] ++ payload ++ [10]

/-- The closed view of Go's open `interface{}` argument: the dynamic types
`Client.send` accepts, plus `unsupported` standing for every other dynamic
type (which trips the `default:` branch).  A `float` carries its `%f`
rendering opaquely: IEEE formatting is outside this embedding. -/
inductive Arg where
  | str (s : List Nat)
  | bytes (b : List Nat)
  | strList (l : List (List Nat))
  | int (i : Int)
  | uint (u : Nat)
  | float (rendered : List Nat)
  | bool (b : Bool)
  | nil
  | unsupported (tag : Nat)
deriving DecidableEq

/-- The payload byte string(s) one argument contributes (in order), or the
`bad request` error for an unsupported dynamic type. -/
def argPayloads : Arg → Except Unit (List (List Nat))
  | .str s => .ok [s]
  | .bytes b => .ok [b]
  | .strList l => .ok l
  | .int i => .ok [intDec i]
  | .uint u => .ok [natDec u]
  | .float r => .ok [r]
  | .bool b => .ok [if b then [49] else [48]]
  | .nil => .ok [[]]
  | .unsupported _ => .error ()

/-- `Client.send`'s request encoding: every argument framed in order and a
terminating empty line; an unsupported argument anywhere aborts the whole
request (nothing reaches the socket). -/
def sendEncode : List Arg → Except Unit (List Nat)
  | [] => .ok [10]
  | a :: rest =>
    match argPayloads a with
    | .error e => .error e
    | .ok ps =>
      match sendEncode rest with
      | .error e => .error e
      | .ok tail => .ok ((ps.map frameBytes).flatten ++ tail)

/-! ## Connection engine: `Client.recv`, `Client.Do`, `Client.Reconnect`

`recv` loops: read a chunk from the socket (modelled by an oracle list of
chunks; exhaustion models a read error such as the 15s deadline firing),
append it to `recv_buf`, run `parse`; a `nil` result (malformed length
line) or a non-empty field list returns immediately, an empty one reads on.

`Do` locks the client mutex, sends, receives, and on failure (send errors
not containing "bad request", or any receive error) reconnects and calls
itself recursively while still holding the mutex.  Go's `sync.Mutex` is
not re-entrant, so that recursive call blocks forever; the model makes the
mutex state explicit (`held`) and returns `blocked` when the lock would be
re-acquired by its own holder.

`Reconnect` closes the socket, dials the same address again, and resets
`recv_buf` — but only when the dial succeeded (a failed dial returns
before touching the buffer).  `Do` ignores `Reconnect`'s error. -/

/-- Errors visible at the `Do` / typed-facade boundary. -/
inductive Err where
  | badRequest
  | io (code : Nat)
  | badResponse
deriving DecidableEq

/-- What `recv` returns: a socket read error, the `nil` response produced
by a malformed length line (with `err == nil`!), or a decoded frame. -/
inductive RecvRes where
  | ioErr
  | nilResp
  | frame (fields : List (List Nat))
deriving DecidableEq

/-- `Client.recv`: the read loop, returning the result together with the
retained receive buffer. -/
def recvGo : List (List Nat) → List Nat → RecvRes × List Nat
  | [], buf => (.ioErr, buf)
  | c :: rest, buf =>
    let buf2 := buf ++ c
    match parse buf2 with
    | .malformed => (.nilResp, buf2)
    | .frame fs n => (.frame fs, buf2.drop n)
    | .incomplete => recvGo rest buf2

/-- The socket oracle for one `Do` call: per attempt index, the outcome of
the socket write (`none` = ok, `some code` = I/O error), the outcome of
the `Reconnect` dial, and the chunks the socket delivers to `recv`. -/
structure NetEnv where
  sendErr : Nat → Option Nat
  dialOk : Nat → Bool
  chunks : Nat → List (List Nat)

/-- Outcome of a `Do` call: blocked forever on the client's own mutex, or
returned `(resp, err)` (a Go `nil` slice is the empty list). -/
inductive DoRes where
  | blocked
  | ret (resp : List (List Nat)) (err : Option Err)
deriving DecidableEq

/-- `Client.send` composed with the socket write of attempt `attempt`:
a local encoding failure yields the `bad request` error, otherwise the
write's outcome decides. -/
def sendAttempt (env : NetEnv) (args : List Arg) (attempt : Nat) : Option Err :=
  match sendEncode args with
  | .error _ => some .badRequest
  | .ok _ => (env.sendErr attempt).map .io

/-- `Client.Do` with the mutex state explicit.  Returns the outcome, the
number of `Reconnect` calls performed, and the final receive buffer.
The first argument is recursion budget: the retry guard `retries < 3`
bounds the recursion depth by 4, so any budget ≥ 4 - retries is exact
(the 0-budget fallback is unreachable from `DoCall`). -/
def Do (env : NetEnv) (args : List Arg) :
    Nat → Bool → Nat → Nat → List Nat → DoRes × Nat × List Nat
  | 0, _, _, _, buf => (.blocked, 0, buf)
  | budget + 1, held, retries, attempt, buf =>
    if held then (.blocked, 0, buf)
    else
      match sendAttempt env args attempt with
      | some .badRequest => (.ret [] (some .badRequest), 0, buf)
      | some e =>
        if retries < 3 then
          -- retries++; c.Reconnect(); return c.Do(retries, args...)
          let buf2 := if env.dialOk attempt then [] else buf
          let r := Do env args budget true (retries + 1) (attempt + 1) buf2
          (r.1, r.2.1 + 1, r.2.2)
        else (.ret [] (some e), 0, buf)
      | none =>
        match recvGo (env.chunks attempt) buf with
        | (.ioErr, buf2) =>
          if retries < 3 then
            let buf3 := if env.dialOk attempt then [] else buf2
            let r := Do env args budget true (retries + 1) (attempt + 1) buf3
            (r.1, r.2.1 + 1, r.2.2)
          else (.ret [] (some (.io 0)), 0, buf2)
        | (.nilResp, buf2) => (.ret [] none, 0, buf2)
        | (.frame fs, buf2) => (.ret fs none, 0, buf2)

/-- A top-level `Do(0, args...)` call on an unlocked client. -/
def DoCall (env : NetEnv) (args : List Arg) (buf : List Nat) :
    DoRes × Nat × List Nat :=
  Do env args 4 false 0 0 buf

/-- The typed `Client.Set` facade applied to `Do`'s `(resp, err)` result:
`len(resp) > 0 && resp[0] == "ok"` is success, anything else without an
underlying error is `ErrBadResponse`. -/
def setResult (resp : List (List Nat)) (err : Option Err) : Bool × Option Err :=
  match err with
  | some e => (false, some e)
  | none => if resp.head? = some [111, 107] then (true, none) else (false, some .badResponse)

/-- A socket whose write fails once with a transient error (e.g. a reset),
with working dial and no incoming data. -/
def envSendReset : NetEnv :=
  { sendErr := fun _ => some 1, dialOk := fun _ => true, chunks := fun _ => [] }

/-- A socket that accepts the write but delivers nothing within the read
deadline: `recv` fails with a timeout. -/
def envRecvTimeout : NetEnv :=
  { sendErr := fun _ => none, dialOk := fun _ => true, chunks := fun _ => [] }

/-- The socket of a client after `Close`: every write fails with the
`use of closed network connection` error; dialling the stored address
still succeeds. -/
def envClosedSock : NetEnv :=
  { sendErr := fun _ => some 2, dialOk := fun _ => true, chunks := fun _ => [] }

/-- A server whose reply starts with a malformed length line `"a\n"`. -/
def envMalformed : NetEnv :=
  { sendErr := fun _ => none, dialOk := fun _ => true, chunks := fun _ => [[97, 10]] }

/-! ## Shard locator: `Cluster.locate`

`locate` hashes the key with `crypto/sha1`, reads the first two digest
bytes as a little-endian 16-bit integer and reduces it modulo
`uint16(len(c.shards))`.  The SHA-1 algorithm below is the standard one
implemented by Go's `crypto/sha1` (a collaborator outside `src/`),
expressed over `Nat` with explicit mod-2^32 arithmetic.  The Go modulo is
a `uint16` operation: the shard count is truncated mod 2^16, and a zero
divisor (empty table, or exactly a multiple of 65536 shards) is a runtime
panic, modelled as `none`. -/

/-- Truncation to a 32-bit word. -/
def w32 (x : Nat) : Nat := x % 4294967296

/-- 32-bit left rotation. -/
def rotl (s x : Nat) : Nat :=
  (w32 (x <<< s)) ||| ((x % 4294967296) >>> (32 - s))

/-- Big-endian 32-bit word from four bytes. -/
def word (a b c d : Nat) : Nat :=
  ((a % 256) <<< 24) ||| ((b % 256) <<< 16) ||| ((c % 256) <<< 8) ||| (d % 256)

/-- Big-endian bytes of a 32-bit word. -/
def wordBytes (w : Nat) : List Nat :=
  [(w >>> 24) % 256, (w >>> 16) % 256, (w >>> 8) % 256, w % 256]

/-- Big-endian bytes of the 64-bit message bit length. -/
def be64 (n : Nat) : List Nat :=
  [(n >>> 56) % 256, (n >>> 48) % 256, (n >>> 40) % 256, (n >>> 32) % 256,
   (n >>> 24) % 256, (n >>> 16) % 256, (n >>> 8) % 256, n % 256]

/-- SHA-1 padding: `0x80`, zeros to 56 mod 64, then the bit length. -/
def sha1pad (msg : List Nat) : List Nat :=
  let z := (64 + 56 - ((msg.length + 1) % 64)) % 64
  msg ++ 128 :: List.replicate z 0 ++ be64 ((8 * msg.length) % 2 ^ 64)

/-- Split into 64-byte blocks (fuel-indexed; `l.length + 1` suffices). -/
def blocks64Aux : Nat → List Nat → List (List Nat)
  | 0, _ => []
  | f + 1, l => if l = [] then [] else l.take 64 :: blocks64Aux f (l.drop 64)

/-- Split into 64-byte blocks. -/
def blocks64 (l : List Nat) : List (List Nat) := blocks64Aux (l.length + 1) l

/-- Group a 64-byte block into 16 big-endian words. -/
def toWords : List Nat → List Nat
  | a :: b :: c :: d :: rest => word a b c d :: toWords rest
  | _ => []

/-- Extend the word schedule by one word per unit of fuel. -/
def expandWAux : Nat → List Nat → List Nat
  | 0, w => w
  | f + 1, w =>
    expandWAux f (w ++ [rotl 1 ((w.getD (w.length - 3) 0) ^^^ (w.getD (w.length - 8) 0) ^^^
      (w.getD (w.length - 14) 0) ^^^ (w.getD (w.length - 16) 0))])

/-- Extend the 16-word schedule to 80 words. -/
def expandW (w : List Nat) : List Nat := expandWAux (80 - w.length) w

/-- One SHA-1 compression round. -/
def sha1Round (w : List Nat) (st : Nat × Nat × Nat × Nat × Nat) (i : Nat) :
    Nat × Nat × Nat × Nat × Nat :=
  let (a, b, c, d, e) := st
  let f :=
    if i < 20 then (b &&& c) ||| ((b ^^^ 4294967295) &&& d)
    else if i < 40 then b ^^^ c ^^^ d
    else if i < 60 then (b &&& c) ||| (b &&& d) ||| (c &&& d)
    else b ^^^ c ^^^ d
  let k :=
    if i < 20 then 1518500249
    else if i < 40 then 1859775393
    else if i < 60 then 2400959708
    else 3395469782
  let temp := w32 (rotl 5 a + f + e + k + w.getD i 0)
  (temp, a, rotl 30 b, c, d)

/-- SHA-1 compression of one 64-byte block. -/
def sha1Block (h : Nat × Nat × Nat × Nat × Nat) (block : List Nat) :
    Nat × Nat × Nat × Nat × Nat :=
  let w := expandW (toWords block)
  let (a, b, c, d, e) := (List.range 80).foldl (sha1Round w) h
  (w32 (h.1 + a), w32 (h.2.1 + b), w32 (h.2.2.1 + c), w32 (h.2.2.2.1 + d),
   w32 (h.2.2.2.2 + e))

/-- The 20 digest bytes of a final SHA-1 state, big-endian per word. -/
def digestBytes (h : Nat × Nat × Nat × Nat × Nat) : List Nat :=
  wordBytes h.1 ++ wordBytes h.2.1 ++ wordBytes h.2.2.1 ++ wordBytes h.2.2.2.1 ++
    wordBytes h.2.2.2.2

/-- The SHA-1 digest (20 bytes) of a byte string. -/
def sha1 (msg : List Nat) : List Nat :=
  digestBytes ((blocks64 (sha1pad msg)).foldl sha1Block
    (1732584193, 4023233417, 2562383102, 271733878, 3285377520))

/-- `Cluster.locate`: `((uint16(s[0]) << 0) | (uint16(s[1]) << 8)) %
uint16(len(c.shards))`, where a zero `uint16` divisor is a Go runtime
panic (`none`). -/
def locate (k : List Nat) (n : Nat) : Option Nat :=
  let s := sha1 k
  let m := n % 65536
  if m = 0 then none
  else some (((((s.getD 0 0) <<< 0) ||| ((s.getD 1 0) <<< 8)) % 65536) % m)

/-- The little-endian 16-bit reading of the digest's first two bytes, as
the spec words it. -/
def sha1le16 (k : List Nat) : Nat := (sha1 k).getD 0 0 + 256 * (sha1 k).getD 1 0

/-! ## Cluster fan-out: `Cluster.MultiGet`, `MultiSet`, `MultiDel`

`locateKeys` groups the keys by shard in input order (a `map[int][]T`
built by `append`).  Each non-empty group gets one goroutine calling the
shard's client; the main goroutine drains one channel value per group, in
whatever order the goroutines finish.  That arrival order is the model's
explicit `arrival` parameter, and the per-shard client call is the oracle
`res`.  `MultiGet`'s goroutine sends the pair slice only when the call
succeeded with a non-nil result, and the merge silently concatenates in
arrival order — the channel carries no error.  `MultiSet` / `MultiDel`
goroutines write the shard's error to a shared `err` variable and send
their group index (or -1) on the channel; the drain appends the
successful groups' keys. -/

/-- A decoded key/value pair (`KVPair`). -/
structure KV where
  k : List Nat
  v : List Nat
deriving DecidableEq

/-- The group of keys `locateKeys` assigns to shard `i` (input order). -/
def partKeys (n : Nat) (ks : List (List Nat)) (i : Nat) : List (List Nat) :=
  ks.filter (fun k => locate k n = some i)

/-- The group of pairs `locatePairs` assigns to shard `i` (input order). -/
def partPairs (n : Nat) (ps : List KV) (i : Nat) : List KV :=
  ps.filter (fun p => locate p.k n = some i)

/-- What a `MultiGet` goroutine sends on the channel, given the shard
client's `(pairs, err)` result: the pairs when `err == nil && ps != nil`,
otherwise `nil` (`none`).  A Go pair slice is nil exactly when empty. -/
def chValMG (r : Option Err × List KV) : Option (List KV) :=
  if r.1 = none ∧ r.2 ≠ [] then some r.2 else none

/-- `Cluster.MultiGet`'s drain: concatenate, in channel-arrival order, the
non-nil slices received.  The return type carries no error at all. -/
def clusterMultiGet (res : Nat → Option Err × List KV) (arrival : List Nat) :
    List KV :=
  arrival.foldl (fun acc i => acc ++ ((chValMG (res i)).getD [])) []

/-- The shared `err` variable after all `MultiSet` / `MultiDel` goroutines
ran: the last non-nil shard error in arrival order. -/
def lastErr (res : Nat → Option Err × Bool) (arrival : List Nat) : Option Err :=
  arrival.foldl
    (fun e i => match (res i).1 with | some e2 => some e2 | none => e) none

/-- `Cluster.MultiSet`: keys of the groups whose shard call returned
`(true, nil)`, in channel-arrival order, plus the shared error variable. -/
def clusterMultiSet (n : Nat) (ps : List KV) (res : Nat → Option Err × Bool)
    (arrival : List Nat) : List (List Nat) × Option Err :=
  (arrival.foldl
    (fun acc i =>
      if (res i).1 = none ∧ (res i).2 = true then acc ++ (partPairs n ps i).map KV.k
      else acc) [],
   lastErr res arrival)

/-- `Cluster.MultiDel`: like `MultiSet` but over key groups. -/
def clusterMultiDel (n : Nat) (ks : List (List Nat)) (res : Nat → Option Err × Bool)
    (arrival : List Nat) : List (List Nat) × Option Err :=
  (arrival.foldl
    (fun acc i =>
      if (res i).1 = none ∧ (res i).2 = true then acc ++ partKeys n ks i
      else acc) [],
   lastErr res arrival)

/-- Shard results where shard 1's sub-request failed with an I/O error
while shard 0 returned one pair. -/
def resFailC2 : Nat → Option Err × List KV :=
  fun i => if i = 1 then (some (.io 5), []) else (none, [⟨[97], [118]⟩])

/-- Shard results where every shard succeeded but shard 1's keys are
absent (`not_found`, a nil pair slice). -/
def resOkC2 : Nat → Option Err × List KV :=
  fun i => if i = 1 then (none, []) else (none, [⟨[97], [118]⟩])

/-! ## Typed facade requests relevant to the claims -/

/-- Bytes of the command name `multi_del`. -/
def multiDelName : List Nat := [109, 117, 108, 116, 105, 95, 100, 101, 108]

/-- The argument list `Client.MultiDel` passes to `Do`. -/
def multiDelArgs (ks : List (List Nat)) : List Arg :=
  Arg.str multiDelName :: ks.map Arg.str

/-- The argument list `Client.MultiHDel` passes to `Do`; an empty field
list never reaches `Do` (`ErrNotEnoughParams`). -/
def multiHDelArgs (key : List Nat) (fieldList : List (List Nat)) :
    Option (List Arg) :=
  if fieldList = [] then none
  else some (Arg.str multiDelName :: Arg.str key :: fieldList.map Arg.str)

/-! ## Spec-side encoder (from the specification's words, for refinement)

The spec says: each value is framed as `<decimal-length>\n<raw-bytes>\n`
(booleans as "1"/"0", integers and floats as decimal text, absent as a
zero-length frame, a sequence-of-text expanded in place as one frame per
element), the whole request terminated by one empty line, and any other
value type fails the whole request. -/

/-- Spec wording: one value framed as `<decimal-length>\n<raw-bytes>\n`. -/
def specFrame (v : List Nat) : List Nat := natDec v.length ++ [10] ++ v ++ [10]

/-- Spec wording: the raw byte string(s) a supported argument denotes. -/
def specValueBytes : Arg → Option (List (List Nat))
  | .str s => some [s]
  | .bytes b => some [b]
  | .strList l => some l
  | .int i => some [intDec i]
  | .uint u => some [natDec u]
  | .float r => some [r]
  | .bool b => some [if b then [49] else [48]]
  | .nil => some [[]]
  | .unsupported _ => none

/-- Spec wording: frame every argument's value(s) in order and append one
empty line; fail the whole request on an unsupported value. -/
def specEncode : List Arg → Option (List Nat)
  | [] => some [10]
  | a :: rest => do
    let vs ← specValueBytes a
    let tail ← specEncode rest
    some ((vs.map specFrame).flatten ++ tail)

/-! ## Decoder lemmas: fuel adequacy, extension stability, composition -/

theorem findNl_lt {r : List Nat} {i : Nat} (h : findNl r = some i) : i < r.length := by
  induction r generalizing i with
  | nil => simp [findNl] at h
  | cons b bs ih =>
    simp only [findNl] at h
    by_cases hb : b = 10
    · rw [if_pos hb] at h
      injection h with h'
      simp only [List.length_cons]
      omega
    · rw [if_neg hb, Option.map_eq_some'] at h
      obtain ⟨j, hj, hji⟩ := h
      have := ih hj
      simp only [List.length_cons]
      omega

theorem findNl_append {r : List Nat} {i : Nat} (ext : List Nat)
    (h : findNl r = some i) : findNl (r ++ ext) = some i := by
  induction r generalizing i with
  | nil => simp [findNl] at h
  | cons b bs ih =>
    simp only [findNl] at h
    by_cases hb : b = 10
    · rw [if_pos hb] at h
      show findNl (b :: (bs ++ ext)) = some i
      simp only [findNl, if_pos hb]
      exact h
    · rw [if_neg hb, Option.map_eq_some'] at h
      obtain ⟨j, hj, hji⟩ := h
      show findNl (b :: (bs ++ ext)) = some i
      simp only [findNl, if_neg hb, ih hj, Option.map_some']
      rw [hji]

theorem parseLoop_irrel :
    ∀ (f1 f2 : Nat) (r : List Nat) (c : Nat) (resp : List (List Nat)),
      r.length < f1 → r.length < f2 →
      parseLoop f1 r c resp = parseLoop f2 r c resp := by
  intro f1
  induction f1 with
  | zero => intro f2 r c resp h1 _; omega
  | succ g ih =>
    intro f2 r c resp h1 h2
    obtain ⟨g2, rfl⟩ : ∃ g2, f2 = g2 + 1 := ⟨f2 - 1, by omega⟩
    cases hf : findNl r with
    | none => simp only [parseLoop, hf]
    | some idx =>
      have hidx := findNl_lt hf
      have e1 : (r.drop (idx + 1)).length = r.length - (idx + 1) := by
        simp [List.length_drop]
      simp only [parseLoop, hf]
      by_cases hp : r.take idx = [] ∨ r.take idx = [13]
      · simp only [if_pos hp]
        by_cases hresp : resp = []
        · simp only [if_pos hresp]
          exact ih g2 _ _ _ (by omega) (by omega)
        · simp only [if_neg hresp]
      · simp only [if_neg hp]
        cases ha : atoiGo (r.take idx) with
        | none => rfl
        | some size =>
          by_cases hs : size < 0
          · simp only [if_pos hs]
          · simp only [if_neg hs]
            by_cases hr : (r.drop (idx + 1)).length ≤ size.toNat
            · simp only [if_pos hr]
            · simp only [if_neg hr]
              have e2 : ((r.drop (idx + 1)).drop (size.toNat + 1)).length =
                  (r.drop (idx + 1)).length - (size.toNat + 1) := by
                simp only [List.length_drop]
              exact ih g2 _ _ _ (by omega) (by omega)

theorem parseLoop_append :
    ∀ (f1 : Nat) (r : List Nat) (c : Nat) (resp : List (List Nat))
      (ext : List Nat) (fs : List (List Nat)) (n f2 : Nat),
      r.length < f1 → (r ++ ext).length < f2 →
      parseLoop f1 r c resp = .frame fs n →
      parseLoop f2 (r ++ ext) c resp = .frame fs n := by
  intro f1
  induction f1 with
  | zero => intro r c resp ext fs n f2 h1 _ _; omega
  | succ g ih =>
    intro r c resp ext fs n f2 h1 h2 h3
    obtain ⟨g2, rfl⟩ : ∃ g2, f2 = g2 + 1 := ⟨f2 - 1, by omega⟩
    have eapp : (r ++ ext).length = r.length + ext.length := by simp
    cases hf : findNl r with
    | none =>
      simp only [parseLoop, hf] at h3
      exact absurd h3 (by simp)
    | some idx =>
      have hidx := findNl_lt hf
      have e1 : (r.drop (idx + 1)).length = r.length - (idx + 1) := by
        simp [List.length_drop]
      have edapp : (r.drop (idx + 1) ++ ext).length =
          (r.drop (idx + 1)).length + ext.length := by simp
      have htake : (r ++ ext).take idx = r.take idx :=
        List.take_append_of_le_length (by omega)
      have hdrop : (r ++ ext).drop (idx + 1) = r.drop (idx + 1) ++ ext :=
        List.drop_append_of_le_length (by omega)
      simp only [parseLoop, hf] at h3
      simp only [parseLoop, findNl_append ext hf, htake, hdrop]
      by_cases hp : r.take idx = [] ∨ r.take idx = [13]
      · simp only [if_pos hp] at h3 ⊢
        by_cases hresp : resp = []
        · simp only [if_pos hresp] at h3 ⊢
          exact ih _ _ _ ext fs n g2 (by omega) (by omega) h3
        · simp only [if_neg hresp] at h3 ⊢
          exact h3
      · simp only [if_neg hp] at h3 ⊢
        cases ha : atoiGo (r.take idx) with
        | none =>
          simp only [ha] at h3
          exact absurd h3 (by simp)
        | some size =>
          simp only [ha] at h3 ⊢
          by_cases hs : size < 0
          · simp only [if_pos hs] at h3
            exact absurd h3 (by simp)
          · simp only [if_neg hs] at h3 ⊢
            by_cases hr : (r.drop (idx + 1)).length ≤ size.toNat
            · simp only [if_pos hr] at h3
              exact absurd h3 (by simp)
            · simp only [if_neg hr] at h3
              have hr2 : ¬ ((r.drop (idx + 1) ++ ext).length ≤ size.toNat) := by
                omega
              have htake2 : (r.drop (idx + 1) ++ ext).take size.toNat =
                  (r.drop (idx + 1)).take size.toNat :=
                List.take_append_of_le_length (by omega)
              have hdrop2 : (r.drop (idx + 1) ++ ext).drop (size.toNat + 1) =
                  (r.drop (idx + 1)).drop (size.toNat + 1) ++ ext :=
                List.drop_append_of_le_length (by omega)
              have e2 : ((r.drop (idx + 1)).drop (size.toNat + 1)).length =
                  (r.drop (idx + 1)).length - (size.toNat + 1) := by
                simp only [List.length_drop]
              have e3 : ((r.drop (idx + 1)).drop (size.toNat + 1) ++ ext).length =
                  ((r.drop (idx + 1)).drop (size.toNat + 1)).length + ext.length := by
                simp
              simp only [if_neg hr2, htake2, hdrop2]
              exact ih _ _ _ ext fs n g2 (by omega) (by omega) h3

theorem parseLoop_consumed :
    ∀ (f : Nat) (r : List Nat) (c : Nat) (resp : List (List Nat))
      (fs : List (List Nat)) (n : Nat),
      parseLoop f r c resp = .frame fs n → c < n ∧ n ≤ c + r.length := by
  intro f
  induction f with
  | zero => intro r c resp fs n h; simp [parseLoop] at h
  | succ g ih =>
    intro r c resp fs n h3
    cases hf : findNl r with
    | none =>
      simp only [parseLoop, hf] at h3
      exact absurd h3 (by simp)
    | some idx =>
      have hidx := findNl_lt hf
      have e1 : (r.drop (idx + 1)).length = r.length - (idx + 1) := by
        simp [List.length_drop]
      simp only [parseLoop, hf] at h3
      by_cases hp : r.take idx = [] ∨ r.take idx = [13]
      · simp only [if_pos hp] at h3
        by_cases hresp : resp = []
        · simp only [if_pos hresp] at h3
          have := ih _ _ _ _ _ h3
          omega
        · simp only [if_neg hresp, ParseRes.frame.injEq] at h3
          omega
      · simp only [if_neg hp] at h3
        cases ha : atoiGo (r.take idx) with
        | none =>
          simp only [ha] at h3
          exact absurd h3 (by simp)
        | some size =>
          simp only [ha] at h3
          by_cases hs : size < 0
          · simp only [if_pos hs] at h3
            exact absurd h3 (by simp)
          · simp only [if_neg hs] at h3
            by_cases hr : (r.drop (idx + 1)).length ≤ size.toNat
            · simp only [if_pos hr] at h3
              exact absurd h3 (by simp)
            · simp only [if_neg hr] at h3
              have e2 : ((r.drop (idx + 1)).drop (size.toNat + 1)).length =
                  (r.drop (idx + 1)).length - (size.toNat + 1) := by
                simp only [List.length_drop]
              have := ih _ _ _ _ _ h3
              omega

theorem parse_frame_bounds {buf : List Nat} {fs : List (List Nat)} {n : Nat}
    (h : parse buf = .frame fs n) : 0 < n ∧ n ≤ buf.length := by
  have := parseLoop_consumed (buf.length + 1) buf 0 [] fs n h
  omega

theorem parse_append_frame {buf : List Nat} {fs : List (List Nat)} {n : Nat}
    (ext : List Nat) (h : parse buf = .frame fs n) :
    parse (buf ++ ext) = .frame fs n := by
  refine parseLoop_append (buf.length + 1) buf 0 [] ext fs n _ (by omega) ?_ h
  omega

theorem drain_succ (f : Nat) (buf : List Nat) :
    drain (f + 1) buf =
      match parse buf with
      | .frame fs n => (fs :: (drain f (buf.drop n)).1, (drain f (buf.drop n)).2)
      | _ => ([], buf) := rfl

theorem drain_irrel :
    ∀ (f1 f2 : Nat) (buf : List Nat), buf.length < f1 → buf.length < f2 →
      drain f1 buf = drain f2 buf := by
  intro f1
  induction f1 with
  | zero => intro f2 buf h1 _; omega
  | succ g ih =>
    intro f2 buf h1 h2
    obtain ⟨g2, rfl⟩ : ∃ g2, f2 = g2 + 1 := ⟨f2 - 1, by omega⟩
    rw [drain_succ, drain_succ]
    cases hp : parse buf with
    | frame fs n =>
      have hb := parse_frame_bounds hp
      have e1 : (buf.drop n).length = buf.length - n := by simp [List.length_drop]
      show (fs :: (drain g (buf.drop n)).1, (drain g (buf.drop n)).2) =
          (fs :: (drain g2 (buf.drop n)).1, (drain g2 (buf.drop n)).2)
      rw [ih g2 (buf.drop n) (by omega) (by omega)]
    | incomplete => rfl
    | malformed => rfl

theorem drainF_frame {buf : List Nat} {fs : List (List Nat)} {n : Nat}
    (h : parse buf = .frame fs n) :
    drainF buf = (fs :: (drainF (buf.drop n)).1, (drainF (buf.drop n)).2) := by
  have hb := parse_frame_bounds h
  show drain (buf.length + 1) buf = _
  rw [drain_succ, h]
  show (fs :: (drain buf.length (buf.drop n)).1, (drain buf.length (buf.drop n)).2) = _
  have e1 : (buf.drop n).length = buf.length - n := by simp [List.length_drop]
  rw [drain_irrel buf.length ((buf.drop n).length + 1) (buf.drop n)
    (by omega) (by omega)]
  rfl

theorem drainF_not_frame {buf : List Nat}
    (h : ∀ fs n, parse buf ≠ .frame fs n) : drainF buf = ([], buf) := by
  show drain (buf.length + 1) buf = _
  rw [drain_succ]
  cases hp : parse buf with
  | frame fs n => exact absurd hp (h fs n)
  | incomplete => rfl
  | malformed => rfl

theorem parse_nil : parse [] = .incomplete := rfl

theorem drainF_residual_aux :
    ∀ (N : Nat) (buf : List Nat), buf.length ≤ N →
      ∀ (fs : List (List Nat)) (n : Nat), parse ((drainF buf).2) ≠ .frame fs n := by
  intro N
  induction N with
  | zero =>
    intro buf h fs n
    have : buf = [] := List.eq_nil_of_length_eq_zero (by omega)
    subst this
    rw [@drainF_not_frame [] (by intro gs m hc; rw [parse_nil] at hc; cases hc)]
    rw [parse_nil]
    simp
  | succ M ih =>
    intro buf h fs n
    cases hp : parse buf with
    | frame gs m =>
      have hb := parse_frame_bounds hp
      have e1 : (buf.drop m).length = buf.length - m := by simp [List.length_drop]
      rw [drainF_frame hp]
      exact ih (buf.drop m) (by omega) fs n
    | incomplete =>
      rw [@drainF_not_frame buf (by intro gs m hc; rw [hp] at hc; cases hc)]
      rw [hp]
      simp
    | malformed =>
      rw [@drainF_not_frame buf (by intro gs m hc; rw [hp] at hc; cases hc)]
      rw [hp]
      simp

theorem drainF_residual (buf : List Nat) :
    ∀ (fs : List (List Nat)) (n : Nat), parse ((drainF buf).2) ≠ .frame fs n :=
  drainF_residual_aux buf.length buf (le_refl _)

theorem drainF_append :
    ∀ (N : Nat) (buf ext : List Nat), buf.length ≤ N →
      drainF (buf ++ ext) =
        ((drainF buf).1 ++ (drainF ((drainF buf).2 ++ ext)).1,
         (drainF ((drainF buf).2 ++ ext)).2) := by
  intro N
  induction N with
  | zero =>
    intro buf ext h
    have : buf = [] := List.eq_nil_of_length_eq_zero (by omega)
    subst this
    have hnil : drainF ([] : List Nat) = ([], []) :=
      @drainF_not_frame [] (by intro gs m hc; rw [parse_nil] at hc; cases hc)
    simp [hnil]
  | succ M ih =>
    intro buf ext h
    cases hp : parse buf with
    | frame fs n =>
      have hb := parse_frame_bounds hp
      have e1 : (buf.drop n).length = buf.length - n := by simp [List.length_drop]
      have h2 : parse (buf ++ ext) = .frame fs n := parse_append_frame ext hp
      rw [drainF_frame hp, drainF_frame h2]
      have hdrop : (buf ++ ext).drop n = buf.drop n ++ ext :=
        List.drop_append_of_le_length (by omega)
      rw [hdrop, ih (buf.drop n) ext (by omega)]
      simp
    | incomplete =>
      rw [@drainF_not_frame buf (by intro gs m hc; rw [hp] at hc; cases hc)]
      simp
    | malformed =>
      rw [@drainF_not_frame buf (by intro gs m hc; rw [hp] at hc; cases hc)]
      simp

theorem feedAll_go :
    ∀ (chunks : List (List Nat)) (acc : List (List (List Nat))) (buf : List Nat),
      (∀ fs n, parse buf ≠ .frame fs n) →
      chunks.foldl
        (fun st c => (st.1 ++ (drainF (st.2 ++ c)).1, (drainF (st.2 ++ c)).2))
        (acc, buf) =
      (acc ++ (drainF (buf ++ chunks.flatten)).1,
       (drainF (buf ++ chunks.flatten)).2) := by
  intro chunks
  induction chunks with
  | nil =>
    intro acc buf hres
    simp only [List.foldl_nil, List.flatten_nil, List.append_nil]
    rw [drainF_not_frame hres]
    simp
  | cons c cs ih =>
    intro acc buf hres
    simp only [List.foldl_cons, List.flatten_cons]
    rw [ih _ _ (drainF_residual (buf ++ c))]
    rw [show buf ++ (c ++ cs.flatten) = (buf ++ c) ++ cs.flatten by simp,
      drainF_append ((buf ++ c).length) (buf ++ c) cs.flatten (le_refl _)]
    simp

/-! ## Encoder, locator and fan-out lemmas -/

theorem specFrame_eq_frameBytes : specFrame = frameBytes := rfl

theorem sendEncode_spec : ∀ args : List Arg, (sendEncode args).toOption = specEncode args := by
  intro args
  induction args with
  | nil => rfl
  | cons a rest ih =>
    cases hr : sendEncode rest with
    | error e =>
      have h2 : specEncode rest = none := by rw [← ih, hr]; rfl
      cases a <;> simp [sendEncode, specEncode, argPayloads, specValueBytes, hr, h2, Except.toOption]
    | ok tail =>
      have h2 : specEncode rest = some tail := by rw [← ih, hr]; rfl
      cases a <;>
        simp [sendEncode, specEncode, argPayloads, specValueBytes, hr, h2,
          specFrame_eq_frameBytes, Except.toOption]

theorem digestBytes_head_lt (h5 : Nat × Nat × Nat × Nat × Nat) :
    (digestBytes h5).getD 0 0 < 256 ∧ (digestBytes h5).getD 1 0 < 256 := by
  obtain ⟨a, b, c, d, e⟩ := h5
  exact ⟨Nat.mod_lt _ (by omega), Nat.mod_lt _ (by omega)⟩

theorem sha1_head_bytes (msg : List Nat) :
    (sha1 msg).getD 0 0 < 256 ∧ (sha1 msg).getD 1 0 < 256 :=
  digestBytes_head_lt _

theorem locate_eq (k : List Nat) (n : Nat) (h : n % 65536 ≠ 0) :
    locate k n = some (sha1le16 k % (n % 65536)) := by
  have hb := sha1_head_bytes k
  have hb1 : (sha1 k).getD 0 0 < 2 ^ 8 := by omega
  have h1 := Nat.mul_add_lt_is_or hb1 ((sha1 k).getD 1 0)
  have h2 : (2 : Nat) ^ 8 = 256 := rfl
  have e2 : (sha1 k).getD 0 0 <<< 0 ||| (sha1 k).getD 1 0 <<< 8 =
      (sha1 k).getD 0 0 + 256 * (sha1 k).getD 1 0 := by
    rw [Nat.shiftLeft_eq, Nat.shiftLeft_eq, pow_zero, Nat.mul_one, Nat.lor_comm]
    rw [h2] at h1
    rw [h2, Nat.mul_comm ((sha1 k).getD 1 0) 256]
    omega
  show (if n % 65536 = 0 then none
    else some ((((sha1 k).getD 0 0 <<< 0 ||| (sha1 k).getD 1 0 <<< 8) % 65536)
      % (n % 65536))) = some (sha1le16 k % (n % 65536))
  rw [if_neg h, e2, Nat.mod_eq_of_lt
    (show (sha1 k).getD 0 0 + 256 * (sha1 k).getD 1 0 < 65536 by omega)]
  rfl

theorem locate_some_lt (k : List Nat) (n i : Nat) (h : locate k n = some i) :
    i < n % 65536 ∧ i < n := by
  unfold locate at h
  by_cases hm : n % 65536 = 0
  · rw [if_pos hm] at h
    cases h
  · rw [if_neg hm, Option.some_inj] at h
    have h1 : i < n % 65536 := by
      rw [← h]
      exact Nat.mod_lt _ (by omega)
    have h2 : n % 65536 ≤ n := Nat.mod_le _ _
    exact ⟨h1, by omega⟩

theorem foldl_acc_append {α β : Type} (g : α → List β) :
    ∀ (l : List α) (acc : List β),
      l.foldl (fun a i => a ++ g i) acc = acc ++ (l.map g).flatten := by
  intro l
  induction l with
  | nil => intro acc; simp
  | cons x xs ih => intro acc; simp [ih]

theorem lastErr_none_iff (res : Nat → Option Err × Bool) :
    ∀ (l : List Nat) (e0 : Option Err),
      (l.foldl (fun e i => match (res i).1 with | some e2 => some e2 | none => e) e0
        = none) ↔ (e0 = none ∧ ∀ i ∈ l, (res i).1 = none) := by
  intro l
  induction l with
  | nil => intro e0; simp
  | cons i t ih =>
    intro e0
    cases h : (res i).1 with
    | some e2 =>
      simp only [List.foldl_cons, h]
      rw [ih]
      simp [h]
    | none =>
      simp only [List.foldl_cons, h]
      rw [ih]
      simp [h, List.forall_mem_cons]

/-! ## Claims -/

/-- Helper: a `Do` call that re-acquires the already-held client mutex
blocks immediately, whatever its remaining budget. -/
theorem Do_blocked (env : NetEnv) (args : List Arg) :
    ∀ (b r a : Nat) (buf : List Nat), Do env args b true r a buf = (.blocked, 0, buf) := by
  intro b
  cases b <;> intro r a buf <;> rfl

/-- C1: decoder re-entrancy.  Feeding a response byte sequence to the
frame decoder (`recv_buf` + `parse`) in one chunk or split into
arbitrarily many chunks at arbitrary positions yields the identical
sequence of decoded frames; and whenever `parse` cannot complete a frame
it returns an incomplete result and no bytes are removed from the
retained buffer, so the next call resumes from the same position. -/
theorem c1_decoder_reentrancy :
    (∀ chunks : List (List Nat), (feedAll chunks).1 = (feedAll [chunks.flatten]).1) ∧
    (∀ (buf : List Nat) (f : Nat), parse buf = .incomplete → drain f buf = ([], buf)) := by
  constructor
  · intro chunks
    have hres : ∀ (fs : List (List Nat)) (n : Nat),
        parse ([] : List Nat) ≠ .frame fs n := by
      intro fs n hc
      rw [parse_nil] at hc
      cases hc
    unfold feedAll
    rw [feedAll_go chunks [] [] hres, feedAll_go [chunks.flatten] [] [] hres]
    simp
  · intro buf f h
    cases f with
    | zero => rfl
    | succ g => rw [drain_succ, h]

/-- C1 witness: a lone digit with no newline is an incomplete parse and
draining consumes nothing. -/
theorem c1_decoder_reentrancy_witness :
    parse [49] = ParseRes.incomplete ∧ drain 5 [49] = ([], [49]) :=
  ⟨by decide, c1_decoder_reentrancy.2 [49] 5 (by decide)⟩

set_option maxRecDepth 1000000 in
/-- C2 counterexample: with 2 shards and keys "a" (shard 0) and "b"
(shard 1), `Cluster.MultiGet` returns the same value whether shard 1's
sub-request failed with an I/O error or succeeded with the keys absent:
the failure is not distinguishable in the result, refuting the claim. -/
theorem c2_counterexample :
    clusterMultiGet resFailC2 [0, 1] = clusterMultiGet resOkC2 [0, 1] ∧
    (resFailC2 1).1 = some (.io 5) ∧ (resOkC2 1).1 = none ∧
    partKeys 2 [[97], [98]] 0 = [[97]] ∧ partKeys 2 [[97], [98]] 1 = [[98]] := by
  refine ⟨by decide, by decide, by decide, by decide, by decide⟩

/-- C2 amended: `Cluster.MultiGet` merges, in channel-arrival order, only
the successful non-empty shard results and exposes no failure indication;
`Cluster.MultiSet` and `Cluster.MultiDel` report the shared error
variable, which is nil exactly when no drained shard call failed. -/
theorem c2_amended_fanout :
    ∀ (res : Nat → Option Err × List KV) (resB : Nat → Option Err × Bool)
      (n : Nat) (ps : List KV) (ks : List (List Nat)) (arrival : List Nat),
      clusterMultiGet res arrival =
        (arrival.map (fun i => (chValMG (res i)).getD [])).flatten ∧
      ((clusterMultiSet n ps resB arrival).2 = none ↔
        ∀ i ∈ arrival, (resB i).1 = none) ∧
      ((clusterMultiDel n ks resB arrival).2 = none ↔
        ∀ i ∈ arrival, (resB i).1 = none) := by
  intro res resB n ps ks arrival
  refine ⟨?_, ?_, ?_⟩
  · have h := foldl_acc_append (fun i => (chValMG (res i)).getD []) arrival []
    simpa [clusterMultiGet] using h
  · show lastErr resB arrival = none ↔ _
    unfold lastErr
    rw [lastErr_none_iff resB arrival none]
    simp
  · show lastErr resB arrival = none ↔ _
    unfold lastErr
    rw [lastErr_none_iff resB arrival none]
    simp

/-- C2 amended witness: concrete arrival-order merge for two shards. -/
theorem c2_amended_fanout_witness :
    clusterMultiGet resOkC2 [0, 1] =
      (([0, 1] : List Nat).map (fun i => (chValMG (resOkC2 i)).getD [])).flatten :=
  (c2_amended_fanout resOkC2 (fun _ => (none, true)) 2 [] [] [0, 1]).1

/-- C3: a local encoding error ("bad request") is never retried and is
surfaced immediately with no reconnect, for any socket behaviour; but a
transient send failure does not lead to the request being resent: the
code reconnects once and then the recursive `Do` blocks forever on the
client's own (non-reentrant) mutex. -/
theorem c3_retry_classification :
    (∀ (env : NetEnv) (buf : List Nat) (t : Nat),
      DoCall env [Arg.unsupported t] buf = (.ret [] (some .badRequest), 0, buf)) ∧
    DoCall envSendReset [Arg.str [103, 101, 116]] [] = (.blocked, 1, []) := by
  refine ⟨fun env buf t => rfl, by decide⟩

/-- C4: non-termination witness.  With a write that succeeds and a read
that times out (a transient receive failure), `Do` reconnects once and
then blocks forever re-acquiring its own mutex instead of returning. -/
theorem c4_do_deadlock :
    DoCall envRecvTimeout [Arg.str [115, 101, 116]] [] = (.blocked, 1, []) := by
  decide

set_option maxRecDepth 1000000 in
/-- C5 counterexample: a non-empty shard table of exactly 65536 shards
panics (`uint16(65536) = 0` divisor), so no index is returned at all —
non-emptiness alone does not give the claimed in-range index. -/
theorem c5_counterexample : locate [98] 65536 = none := by decide

/-- C5 amended: for 1 to 65535 shards, `Cluster.locate` is the pure
function of the key bytes sending `k` to the first two SHA-1 digest
bytes read little-endian, reduced mod the shard count, and the index is
in range. -/
theorem c5_amended_locate :
    ∀ (k : List Nat) (n : Nat), 1 ≤ n → n ≤ 65535 →
      locate k n = some (sha1le16 k % n) ∧ sha1le16 k % n < n := by
  intro k n h1 h2
  have hm : n % 65536 = n := Nat.mod_eq_of_lt (by omega)
  have h3 := locate_eq k n (by omega)
  rw [hm] at h3
  exact ⟨h3, Nat.mod_lt _ (by omega)⟩

/-- C5 amended witness: key "a" on a 2-shard table. -/
theorem c5_amended_locate_witness :
    locate [97] 2 = some (sha1le16 [97] % 2) ∧ sha1le16 [97] % 2 < 2 :=
  c5_amended_locate [97] 2 (by decide) (by decide)

set_option maxRecDepth 1000000 in
/-- C6 counterexample: on a malformed length line ("a\n") the decoded
response is returned as a nil frame with a nil error: no reconnect
happens (count 0), the malformed bytes stay in the receive buffer, and
nothing is retried — refuting the claimed desync handling.  The typed
facade then reports `ErrBadResponse`. -/
theorem c6_counterexample :
    DoCall envMalformed [Arg.str [103, 101, 116]] [] = (.ret [] none, 0, [97, 10]) ∧
    setResult [] none = (false, some .badResponse) := by
  exact ⟨by decide, rfl⟩

/-- C6 amended: whenever the reply's bytes make `parse` return its
malformed result, `Do` returns `(nil, nil)` — no reconnect, the buffered
bytes (including the malformed line) retained, no retry — and the `Set`
facade maps that to `ErrBadResponse`, not success. -/
theorem c6_amended_malformed :
    ∀ (env : NetEnv) (args : List Arg) (bs buf chunk : List Nat),
      sendEncode args = .ok bs → env.sendErr 0 = none → env.chunks 0 = [chunk] →
      parse (buf ++ chunk) = .malformed →
      DoCall env args buf = (.ret [] none, 0, buf ++ chunk) ∧
      setResult [] none = (false, some .badResponse) := by
  intro env args bs buf chunk h1 h2 h3 h4
  refine ⟨?_, rfl⟩
  show Do env args (3 + 1) false 0 0 buf = _
  simp [Do, sendAttempt, recvGo, h1, h2, h3, h4]

/-- C6 amended witness: the concrete malformed reply "a\n". -/
theorem c6_amended_malformed_witness :
    DoCall envMalformed [Arg.str [103, 101, 116]] [] =
      (.ret [] none, 0, [] ++ [97, 10]) ∧
    setResult [] none = (false, some .badResponse) :=
  c6_amended_malformed envMalformed [Arg.str [103, 101, 116]]
    [51, 10, 103, 101, 116, 10, 10] [] [97, 10] rfl rfl rfl (by decide)

/-- C7: the encoder produces exactly the claimed framing (refinement of
`Client.send` against the spec-worded encoder), `set("a","1")` encodes
to `3\nset\n1\na\n1\n1\n\n`, and a frame whose single field is "ok"
decodes through `Set` to success-true. -/
theorem c7_encoder :
    (∀ args : List Arg, (sendEncode args).toOption = specEncode args) ∧
    sendEncode [Arg.str [115, 101, 116], Arg.str [97], Arg.str [49]] =
      .ok [51, 10, 115, 101, 116, 10, 49, 10, 97, 10, 49, 10, 49, 10, 10] ∧
    setResult [[111, 107]] none = (true, none) :=
  ⟨sendEncode_spec, rfl, rfl⟩

set_option maxRecDepth 1000000 in
/-- C8 counterexample: after `Close` the next operation does not fail
with a Closed error — the closed-socket write error is classified as
transient, a fresh connection is dialled (reconnect count 1), and the
recursive retry blocks forever on the held mutex. -/
theorem c8_counterexample :
    DoCall envClosedSock [Arg.str [115, 101, 116], Arg.str [97], Arg.str [49]] [] =
      (.blocked, 1, []) := by
  decide

/-- C8 amended: for any encodable request on a client whose socket write
fails (as after `Close`), `Do` dials a new connection via `Reconnect`
and then deadlocks on its own mutex: it neither returns a Closed error
nor completes the operation. -/
theorem c8_amended_close :
    ∀ (env : NetEnv) (args : List Arg) (bs buf : List Nat) (code : Nat),
      sendEncode args = .ok bs → env.sendErr 0 = some code →
      DoCall env args buf = (.blocked, 1, if env.dialOk 0 then [] else buf) := by
  intro env args bs buf code h1 h2
  show Do env args (3 + 1) false 0 0 buf = _
  simp [Do, sendAttempt, h1, h2, Do_blocked]

/-- C8 amended witness: the closed-socket environment with a pending
buffer byte. -/
theorem c8_amended_close_witness :
    DoCall envClosedSock [Arg.str [100, 101, 108]] [55] =
      (.blocked, 1, if envClosedSock.dialOk 0 then [] else [55]) :=
  c8_amended_close envClosedSock [Arg.str [100, 101, 108]]
    [51, 10, 100, 101, 108, 10, 10] [55] 2 rfl rfl

set_option maxRecDepth 1000000 in
/-- C9 counterexample: non-emptiness is not what makes `locate` total —
65536 shards also panic — and the in-range guarantee does not hold
*only* for 1..65535 shards: at 65537 shards the index 0 is returned and
is in range. -/
theorem c9_counterexample :
    locate [97] 65536 = none ∧ locate [97] 65537 = some 0 := by
  exact ⟨by decide, by decide⟩

/-- C9 amended: `locate` panics exactly when the shard count is a
multiple of 65536 (including the empty table); any returned index is
below `count % 65536` (the 16-bit truncation) and below the count. -/
theorem c9_amended_truncation :
    ∀ (k : List Nat) (n : Nat),
      (locate k n = none ↔ n % 65536 = 0) ∧
      (∀ i, locate k n = some i → i < n % 65536 ∧ i < n) := by
  intro k n
  constructor
  · constructor
    · intro h
      by_contra hm
      rw [locate_eq k n hm] at h
      cases h
    · intro hm
      show (if n % 65536 = 0 then none
        else some ((((sha1 k).getD 0 0 <<< 0 ||| (sha1 k).getD 1 0 <<< 8) % 65536)
          % (n % 65536))) = none
      rw [if_pos hm]
  · exact fun i hi => locate_some_lt k n i hi

set_option maxRecDepth 1000000 in
/-- C9 amended witness: 65537 shards give an in-range index. -/
theorem c9_amended_truncation_witness :
    (0 : Nat) < 65537 % 65536 ∧ (0 : Nat) < 65537 :=
  (c9_amended_truncation [97] 65537).2 0 (by decide)

/-- C10: `Client.MultiHDel` sends the generic `multi_del` command: for a
non-empty field list its argument list — and hence the encoded wire
request — is exactly the one `Client.MultiDel` sends for the hash key
followed by the field names. -/
theorem c10_multihdel_wire :
    ∀ (key : List Nat) (fieldList : List (List Nat)), fieldList ≠ [] →
      ∃ a, multiHDelArgs key fieldList = some a ∧
        sendEncode a = sendEncode (multiDelArgs (key :: fieldList)) := by
  intro key fl h
  refine ⟨multiDelArgs (key :: fl), ?_, rfl⟩
  unfold multiHDelArgs multiDelArgs
  rw [if_neg h]
  simp

/-- C10 witness: `multi_hdel("k", ["f"])` and `multi_del("k", "f")`. -/
theorem c10_multihdel_wire_witness :
    ∃ a, multiHDelArgs [107] [[102]] = some a ∧
      sendEncode a = sendEncode (multiDelArgs ([107] :: [[102]])) :=
  c10_multihdel_wire [107] [[102]] (by decide)

end Gossdb
